import Mathlib

/-!
Verification development for the septik product-search service
(`src/xml_searcher.py`).

The embedding below translates the two core pieces of the source into
Lean:

* the catalog loader `fetch_and_parse_xml` (modelled as the pure function
  `refresh` over an explicit fetch outcome: the network fetch, HTTP status
  check and XML parse are modelled as an `Except FetchErr Document`
  argument, since the remote document is external input);
* the query engine `_do_search` (modelled as `doSearch`, together with the
  per-product scoring step) and `get_product` (modelled as `getProduct`).

Modelling conventions:

* Python strings are `List Char` (`Str`); `str.lower()` is a per-character
  `Char.toLower` map (the queries and fields the claims quantify over are
  handled identically by both).
* Python `float` prices are modelled as `Rat`; `float(s)` is modelled by
  `parsePrice`, which accepts plain decimal literals (optional sign,
  digits, optional fractional part) and rejects everything else.
* Missing XML attributes / subelements are `Option` fields on the source
  records; `Element.text` of an empty element is `none` (this is how a
  stored `category_name` can be null).
* Python dicts are association lists with insert-or-replace-in-place
  (`dictInsert`), preserving insertion order like Python dicts do.
* A raised exception is an `Except.error`; Python's stable `list.sort`
  with key `(-score, price)` is a stable insertion sort under the
  corresponding total preorder `keyLe`.
-/

abbrev Str := List Char

def lowerStr (s : Str) : Str := s.map Char.toLower

/-- Python whitespace for `str.split()` and `\s`: space, tab, newline,
carriage return, vertical tab, form feed. -/
def isSpc (c : Char) : Bool :=
  c = ' ' || c = '\t' || c = '\n' || c = '\r' || c = Char.ofNat 11 || c = Char.ofNat 12

/-- `preOf w t`: `t` starts with `w`. -/
def preOf : Str → Str → Bool
  | [], _ => true
  | _ :: _, [] => false
  | a :: as, b :: bs => if a = b then preOf as bs else false

/-- `isSub w t`: `w` occurs as a contiguous substring of `t`
(Python's `w in t` on strings). -/
def isSub (w : Str) : Str → Bool
  | [] => decide (w = [])
  | c :: ts => preOf w (c :: ts) || isSub w ts

/-- Accumulator-style worker for Python `str.split()`: splits on runs of
whitespace, producing no empty words. `w` is the word being accumulated. -/
def pySplitAux : Str → Str → List Str
  | [], w => if w = [] then [] else [w]
  | c :: cs, w =>
    if isSpc c then (if w = [] then pySplitAux cs [] else w :: pySplitAux cs [])
    else pySplitAux cs (w ++ [c])

/-- Python `s.split()` (no separator argument). -/
def pySplit (s : Str) : List Str := pySplitAux s []

/-- Python `" ".join(l)`. -/
def joinSpace (l : List Str) : Str := List.intercalate [' '] l

def stripWs (s : Str) : Str := ((s.dropWhile isSpc).reverse.dropWhile isSpc).reverse

/-- Value of a digit string; `some 0` on the empty string, `none` if any
character is not a decimal digit. -/
def digitsValE : Str → Option Nat
  | [] => some 0
  | c :: cs =>
    if c.isDigit then (digitsValE cs).map (fun n => (c.toNat - 48) * 10 ^ cs.length + n)
    else none

/-- Models Python `float(s)` on the plain decimal literals that occur in
price fields: optional surrounding whitespace, optional sign, digits with
an optional fractional part. Exotic float syntax (exponents, `inf`, `nan`,
underscores) is modelled as a parse failure; no claim depends on those
forms. `none` models a raised `ValueError`. -/
def parsePrice (s : Str) : Option Rat :=
  let t0 := stripWs s
  let sgnT : Int × Str :=
    match t0 with
    | [] => (1, [])
    | c :: rest => if c = '-' then (-1, rest) else if c = '+' then (1, rest) else (1, c :: rest)
  let sgn := sgnT.1
  let t := sgnT.2
  let intP := t.takeWhile (fun c => c ≠ '.')
  if intP.length = t.length then
    match digitsValE t with
    | some n => if t = [] then none else some ((sgn * n : Int) : Rat)
    | none => none
  else
    let frac := t.drop (intP.length + 1)
    match digitsValE intP, digitsValE frac with
    | some a, some b =>
      if intP = [] ∧ frac = [] then none
      else some (mkRat (sgn * (a * 10 ^ frac.length + b)) (10 ^ frac.length))
    | _, _ => none

/-- Fuelled worker for Python `s.replace(pat, "")` (left-to-right,
non-overlapping). -/
def removePatAux (pat : Str) : Nat → Str → Str
  | 0, s => s
  | _ + 1, [] => []
  | f + 1, c :: cs =>
    if pat ≠ [] ∧ preOf pat (c :: cs) then removePatAux pat f ((c :: cs).drop pat.length)
    else c :: removePatAux pat f cs

def removeAll (pat s : Str) : Str := removePatAux pat s.length s

def CDATA_OPEN : Str := "<![CDATA[".data

def CDATA_CLOSE : Str := "]]>".data

/-- Models `html.unescape` on the core named entities; the source uses the
full Python entity table, but no claim is sensitive to entities beyond
these. -/
def unescapeHtmlAux : Nat → Str → Str
  | 0, s => s
  | _ + 1, [] => []
  | f + 1, c :: cs =>
    if preOf "&amp;".data (c :: cs) then '&' :: unescapeHtmlAux f ((c :: cs).drop 5)
    else if preOf "&lt;".data (c :: cs) then '<' :: unescapeHtmlAux f ((c :: cs).drop 4)
    else if preOf "&gt;".data (c :: cs) then '>' :: unescapeHtmlAux f ((c :: cs).drop 4)
    else if preOf "&quot;".data (c :: cs) then '"' :: unescapeHtmlAux f ((c :: cs).drop 6)
    else c :: unescapeHtmlAux f cs

def unescapeHtml (s : Str) : Str := unescapeHtmlAux s.length s

/-- Fuelled worker for `re.sub(r'<[^>]+>', ' ', s)`: each maximal
`<`...`>` group with at least one character inside becomes one space. -/
def stripTagsAux : Nat → Str → Str
  | 0, s => s
  | _ + 1, [] => []
  | f + 1, c :: cs =>
    if c = '<' then
      let inside := cs.takeWhile (fun d => d ≠ '>')
      if inside ≠ [] ∧ inside.length < cs.length then ' ' :: stripTagsAux f (cs.drop (inside.length + 1))
      else c :: stripTagsAux f cs
    else c :: stripTagsAux f cs

def stripTags (s : Str) : Str := stripTagsAux s.length s

/-- `clean_text` from the source: strip CDATA markers, decode entities,
strip tags, collapse whitespace runs and trim (the final
`re.sub(r'\s+', ' ', s).strip()` equals `" ".join(s.split())`). -/
def cleanText (s : Str) : Str :=
  joinSpace (pySplit (stripTags (unescapeHtml (removeAll CDATA_CLOSE (removeAll CDATA_OPEN s)))))

/-! ### Data model -/

structure Category where
  id : Option Str
  name : Option Str
  parent_id : Option Str
deriving DecidableEq

/-- A `<category>` element of the source document: `id` / `parentId`
attributes and the element text (which is `none` for an empty element). -/
structure SrcCategory where
  id : Option Str
  parentId : Option Str
  text : Option Str
deriving DecidableEq

/-- An `<offer>` element. Attributes (`id`, `available`) are `none` when
absent. Subelement fields are `none` when the subelement is absent, and
`some s` for its text (ElementTree's `findtext` turns a present element
with null text into `""`, so plain text fields never carry a nested
option). `params` holds each `<param>`'s `name` attribute and text, both
of which can be missing. -/
structure Offer where
  id : Option Str
  available : Option Str
  name : Option Str
  price : Option Str
  url : Option Str
  categoryId : Option Str
  description : Option Str
  params : List (Option Str × Option Str)
deriving DecidableEq

structure Product where
  id : Option Str
  name : Str
  price : Rat
  url : Str
  category_id : Str
  description : Str
  params : List (Str × Str)
  category_name : Option (Option Str)
deriving DecidableEq

abbrev CatMap := List (Option Str × Category)

/-- The `CACHE` global: category mapping, product list, timestamp. -/
structure Cache where
  categories : CatMap
  products : List Product
  last_updated : Option Rat
deriving DecidableEq

/-- A parsed source document: the `<category>` and `<offer>` elements in
document order. -/
structure Document where
  categories : List SrcCategory
  offers : List Offer
deriving DecidableEq

/-- Failures that occur before parsing the records: network error,
non-2xx HTTP status from `raise_for_status`, or a malformed document
rejected by `ET.fromstring`. -/
inductive FetchErr
  | network
  | badStatus
  | malformed
deriving DecidableEq

/-- A record-level exception while building products; `valueError` is the
`float(...)` failure on a price text. -/
inductive BuildErr
  | valueError
deriving DecidableEq

/-- A runtime exception inside `_do_search`; `attrError` is
`None.lower()` on a null stored category name. -/
inductive PyErr
  | attrError
deriving DecidableEq

instance {ε α : Type} [DecidableEq ε] [DecidableEq α] : DecidableEq (Except ε α) := fun a b =>
  match a, b with
  | .ok x, .ok y =>
    if h : x = y then .isTrue (by rw [h]) else .isFalse (fun hc => h (by injection hc))
  | .error x, .error y =>
    if h : x = y then .isTrue (by rw [h]) else .isFalse (fun hc => h (by injection hc))
  | .ok _, .error _ => .isFalse (fun hc => Except.noConfusion hc)
  | .error _, .ok _ => .isFalse (fun hc => Except.noConfusion hc)

/-! ### Python dict helpers (association lists, insertion order kept,
insert-or-replace in place like `d[k] = v`) -/

def dictInsert {α β : Type} [DecidableEq α] : List (α × β) → α → β → List (α × β)
  | [], k, v => [(k, v)]
  | (k₁, v₁) :: rest, k, v =>
    if k₁ = k then (k, v) :: rest else (k₁, v₁) :: dictInsert rest k v

def dictGet {α β : Type} [DecidableEq α] (m : List (α × β)) (k : α) : Option β :=
  (m.find? (fun e => e.1 = k)).map (fun e => e.2)

/-- `d.get(k, dflt)`. -/
def dictGetD {α β : Type} [DecidableEq α] (m : List (α × β)) (k : α) (dflt : β) : β :=
  (dictGet m k).getD dflt

/-- `d.values()` in insertion order. -/
def dictValues {α β : Type} (m : List (α × β)) : List β := m.map Prod.snd

/-! ### Catalog loader (`fetch_and_parse_xml`) -/

def TRUE_STR : Str := "true".data

def buildCategories (cs : List SrcCategory) : CatMap :=
  cs.foldl (fun m c => dictInsert m c.id ⟨c.id, c.text, c.parentId⟩) []

/-- Param extraction: `if param_name and param_value` (both must be
present and non-empty by Python truthiness). -/
def buildParams (prs : List (Option Str × Option Str)) : List (Str × Str) :=
  prs.foldl
    (fun m pr =>
      match pr with
      | (some n, some v) => if n ≠ [] ∧ v ≠ [] then dictInsert m n v else m
      | _ => m)
    []

/-- Builds the product dict of one available offer (lines 70-90 of the
source). The only failing step is `float(offer.findtext("price", "0"))`. -/
def mkProduct (o : Offer) (cats : CatMap) : Except BuildErr Product :=
  match parsePrice (o.price.getD ['0']) with
  | none => .error .valueError
  | some pr =>
    let cid := o.categoryId.getD []
    .ok ⟨o.id, o.name.getD [], pr, o.url.getD [], cid,
         cleanText (o.description.getD []), buildParams o.params,
         (dictGet cats (some cid)).map Category.name⟩

/-- The offer loop: skip offers whose `available` attribute is not
exactly `"true"`; a raised exception on any kept offer aborts the whole
loop. -/
def buildProducts (cats : CatMap) : List Offer → Except BuildErr (List Product)
  | [] => .ok []
  | o :: os =>
    if o.available ≠ some TRUE_STR then buildProducts cats os
    else
      match mkProduct o cats with
      | .error e => .error e
      | .ok p =>
        match buildProducts cats os with
        | .error e => .error e
        | .ok ps => .ok (p :: ps)

/-- `fetch_and_parse_xml`: the fetch/parse outcome and the event-loop
clock reading are the external inputs. The `try`/`except` around the
whole body means any failure leaves `CACHE` untouched; on success all
three cache fields are replaced at the end. -/
def refresh (cache : Cache) (fetched : Except FetchErr Document) (now : Rat) : Cache :=
  match fetched with
  | .error _ => cache
  | .ok doc =>
    let cats := buildCategories doc.categories
    match buildProducts cats doc.offers with
    | .error _ => cache
    | .ok ps => ⟨cats, ps, some now⟩

def emptyCache : Cache := ⟨[], [], none⟩

/-! ### Query engine (`_do_search`, `get_product`) -/

def BRAND_KEY : Str := "Бренд".data

def USERS_KEY : Str := "Количество пользователей".data

/-- Python truthiness of an optional string: `None` and `""` are falsy. -/
def truthyS : Option Str → Bool
  | none => false
  | some s => !s.isEmpty

/-- The four filters (lines 119-130): category exact match, inclusive
price range, exact match on the user-count param (missing key compares as
`""`). `category_id` and `users` only filter when truthy. -/
def passesFilters (p : Product) (cid : Option Str) (mn mx : Option Rat) (us : Option Str) : Bool :=
  if truthyS cid && p.category_id ≠ cid.getD [] then false
  else if mn.isSome && decide (p.price < mn.getD 0) then false
  else if mx.isSome && decide (mx.getD 0 < p.price) then false
  else if truthyS us && dictGetD p.params USERS_KEY [] ≠ us.getD [] then false
  else true

/-- `p.get("category_name", "").lower()`: absent key falls back to `""`,
a stored null name raises `AttributeError`. -/
def catLower (p : Product) : Except PyErr Str :=
  match p.category_name with
  | none => .ok []
  | some (some s) => .ok (lowerStr s)
  | some none => .error .attrError

def joinVals (m : List (Str × Str)) : Str := joinSpace (dictValues m)

/-- One query word's tier points: first match among name (10), brand (8),
category (5), all param values (3), description (1); otherwise 0. -/
def tierOf (w nl bl cl pl dl : Str) : Int :=
  if isSub w nl then 10
  else if isSub w bl then 8
  else if isSub w cl then 5
  else if isSub w pl then 3
  else if isSub w dl then 1
  else 0

/-- Lines 134-159 for one product when `q_words` is non-empty: compute the
per-word score, skip the product (`none`) when it is 0, otherwise add the
whole-query-in-name bonus. The lowered search texts are computed up front,
so a null stored category name raises before any matching. -/
def scoreStep (q : Str) (qw : List Str) (p : Product) : Except PyErr (Option (Int × Product)) :=
  match catLower p with
  | .error e => .error e
  | .ok cl =>
    let nl := lowerStr p.name
    let bl := lowerStr (dictGetD p.params BRAND_KEY [])
    let pl := lowerStr (joinVals p.params)
    let dl := lowerStr p.description
    let base := qw.foldl (fun s w => s + tierOf w nl bl cl pl dl) 0
    if base = 0 then .ok none
    else .ok (some ((if isSub (lowerStr q) nl then base + 20 else base), p))

/-- The score a product contributes to the candidate list: skipped
products score 0. -/
def scoreVal : Option (Int × Product) → Int
  | none => 0
  | some (s, _) => s

/-- The candidate-collection loop over `CACHE["products"]`, in list
order. -/
def searchLoop (q : Str) (qw : List Str) (cid : Option Str) (mn mx : Option Rat) (us : Option Str) :
    List Product → Except PyErr (List (Int × Product))
  | [] => .ok []
  | p :: ps =>
    if passesFilters p cid mn mx us then
      if qw.isEmpty then
        match searchLoop q qw cid mn mx us ps with
        | .error e => .error e
        | .ok rest => .ok ((0, p) :: rest)
      else
        match scoreStep q qw p with
        | .error e => .error e
        | .ok none => searchLoop q qw cid mn mx us ps
        | .ok (some x) =>
          match searchLoop q qw cid mn mx us ps with
          | .error e => .error e
          | .ok rest => .ok (x :: rest)
    else searchLoop q qw cid mn mx us ps

/-- The sort key `(-score, price)` as a total preorder: higher score
first, ties by lower price first. -/
def keyLe (a b : Int × Product) : Prop :=
  b.1 < a.1 ∨ (a.1 = b.1 ∧ a.2.price ≤ b.2.price)

instance : DecidableRel keyLe := fun a b => by
  unfold keyLe
  exact inferInstance

instance : IsTrans (Int × Product) keyLe :=
  ⟨fun a b c hab hbc => by
    rcases hab with h1 | ⟨h1, h1p⟩ <;> rcases hbc with h2 | ⟨h2, h2p⟩
    · exact Or.inl (lt_trans h2 h1)
    · exact Or.inl (h2 ▸ h1)
    · exact Or.inl (h1 ▸ h2)
    · exact Or.inr ⟨h1.trans h2, le_trans h1p h2p⟩⟩

instance : IsTotal (Int × Product) keyLe :=
  ⟨fun a b => by
    rcases lt_trichotomy a.1 b.1 with h | h | h
    · exact Or.inr (Or.inl h)
    · rcases le_total a.2.price b.2.price with hp | hp
      · exact Or.inl (Or.inr ⟨h, hp⟩)
      · exact Or.inr (Or.inr ⟨h.symm, hp⟩)
    · exact Or.inl (Or.inl h)⟩

/-- Python slicing `l[:limit]` for an `int` limit. -/
def pyTruncate {α : Type} (limit : Int) (l : List α) : List α :=
  if limit < 0 then l.take (l.length - limit.natAbs) else l.take limit.toNat

structure SearchResult where
  results : List Product
  total_found : Nat
  query : Option Str
deriving DecidableEq

/-- `_do_search`: split the query into lowercased words (empty when `q`
is falsy), collect filtered scored candidates, stable-sort by
`(-score, price)`, truncate, and report the truncated list with its
length and the echoed query. -/
def doSearch (products : List Product) (q : Option Str) (cid : Option Str) (mn mx : Option Rat)
    (us : Option Str) (limit : Int) : Except PyErr SearchResult :=
  let qw := if truthyS q then (pySplit (q.getD [])).map lowerStr else []
  match searchLoop (q.getD []) qw cid mn mx us products with
  | .error e => .error e
  | .ok scored =>
    let sorted := List.insertionSort keyLe scored
    let results := (pyTruncate limit sorted).map Prod.snd
    .ok ⟨results, results.length, q⟩

/-- `get_product`: first product with matching id, 404 (`none`) when
absent. -/
def getProduct (ps : List Product) (pid : Str) : Option Product :=
  ps.find? (fun p => p.id = some pid)

/-! ### Spec-side formulations (refinement targets, phrased from the
specification's words; compared against the code-level functions in the
claim theorems) -/

/-- Spec §4.2: the resolved category name used for matching; absent (or
null) resolves to the empty string. -/
def specCatStr (p : Product) : Str :=
  match p.category_name with
  | some (some s) => s
  | _ => []

/-- Spec §4.2: points of the first tier containing the word, in the order
name (10), brand attribute (8), resolved category name (5), concatenation
of all attribute values (3), description (1); at most one tier per word. -/
def specWordPoints (p : Product) (w : Str) : Int :=
  if isSub w (lowerStr p.name) then 10
  else if isSub w (lowerStr (dictGetD p.params BRAND_KEY [])) then 8
  else if isSub w (lowerStr (specCatStr p)) then 5
  else if isSub w (lowerStr (joinVals p.params)) then 3
  else if isSub w (lowerStr p.description) then 1
  else 0

/-- Spec §4.2: total score = sum of the per-word tier points over the
lowercased whitespace-split query words, plus a flat 20 when the entire
lowercased query is a substring of the lowercased product name. -/
def specScore (p : Product) (q : Str) : Int :=
  (((pySplit q).map lowerStr).map (specWordPoints p)).sum
  + (if isSub (lowerStr q) (lowerStr p.name) then 20 else 0)

/-- The query's lowercased whitespace-split words. -/
def specWords (q : Option Str) : List Str := (pySplit (q.getD [])).map lowerStr

/-- Spec §4.2: the filter-eligible products. -/
def specEligible (ps : List Product) (cid : Option Str) (mn mx : Option Rat) (us : Option Str) :
    List Product :=
  ps.filter (fun p => passesFilters p cid mn mx us)

/-- Spec §4.2: the scored candidate set — with query words, the
filter-eligible products with positive score; without query words, all
filter-eligible products scored 0. -/
def specCandidates (ps : List Product) (q : Option Str) (cid : Option Str) (mn mx : Option Rat)
    (us : Option Str) : List (Int × Product) :=
  if specWords q = [] then (specEligible ps cid mn mx us).map (fun p => ((0 : Int), p))
  else
    (specEligible ps cid mn mx us).filterMap (fun p =>
      if 0 < specScore p (q.getD []) then some (specScore p (q.getD []), p) else none)

/-- The same product with one word appended to its name. -/
def addNameWord (p : Product) (w : Str) : Product :=
  ⟨p.id, p.name ++ ' ' :: w, p.price, p.url, p.category_id, p.description, p.params,
   p.category_name⟩

/-! ### Concrete instances used by witnesses and counterexamples -/

def exQ : Str := "alpha".data

def exProdA : Product := ⟨some ['a'], "alpha pump".data, 5, [], [], [], [], none⟩

def exProdB : Product := ⟨some ['b'], "beta".data, 3, [], [], [], [], none⟩

def exRes2 : SearchResult := ⟨[exProdA], 1, some exQ⟩

def exDocEmpty : Document := ⟨[], []⟩

def exOffer : Offer := ⟨some ['A'], some TRUE_STR, some "pump".data, some "5".data, none, some ['1'], none, []⟩

def exProdOffer : Product := ⟨some ['A'], "pump".data, 5, [], ['1'], [], [], none⟩

def exOfferNoId : Offer := ⟨none, some TRUE_STR, some "nn".data, some "5".data, none, none, none, []⟩

def exProdNoId : Product := ⟨none, "nn".data, 5, [], [], [], [], none⟩

def exDocNoId : Document := ⟨[], [exOfferNoId]⟩

def exOfferBadPrice : Offer := ⟨some ['B'], some TRUE_STR, some "pp".data, some "abc".data, none, none, none, []⟩

def exDocBadPrice : Document := ⟨[], [exOfferBadPrice]⟩

def exOfferNoPrice : Offer := ⟨some ['D'], some TRUE_STR, some "dd".data, none, none, none, none, []⟩

def exProdNoPrice : Product := ⟨some ['D'], "dd".data, 0, [], [], [], [], none⟩

def exSrcCat : SrcCategory := ⟨some ['1'], none, some "pumps".data⟩

def exDocCat : Document := ⟨[exSrcCat], [exOffer]⟩

def exProdCat : Product := ⟨some ['A'], "pump".data, 5, [], ['1'], [], [], some (some "pumps".data)⟩

def exSrcCatNull : SrcCategory := ⟨some ['1'], none, none⟩

def exDocNullCat : Document := ⟨[exSrcCatNull], [exOffer]⟩

/-! ### String lemmas -/

theorem preOf_iff (w t : Str) : preOf w t = true ↔ ∃ b, t = w ++ b := by
  induction w generalizing t with
  | nil => simp [preOf]
  | cons a as ih =>
    cases t with
    | nil => simp [preOf]
    | cons b bs =>
      by_cases hab : a = b
      · subst hab
        simp only [preOf, if_pos rfl, eq_self_iff_true, if_true, List.cons_append,
          List.cons.injEq, true_and]
        exact ih bs
      · simp only [preOf, if_neg hab, List.cons_append]
        constructor
        · intro h
          cases h
        · rintro ⟨u, hu⟩
          injection hu with h1 _
          exact (hab h1.symm).elim

theorem isSub_iff (w t : Str) : isSub w t = true ↔ ∃ a b, t = a ++ w ++ b := by
  induction t with
  | nil =>
    simp only [isSub, decide_eq_true_eq]
    constructor
    · intro h
      exact ⟨[], [], by simp [h]⟩
    · rintro ⟨a, b, hab⟩
      rcases List.append_eq_nil.mp (List.append_eq_nil.mp hab.symm).1 with ⟨-, h2⟩
      exact h2
  | cons c ts ih =>
    simp only [isSub, Bool.or_eq_true, preOf_iff, ih]
    constructor
    · rintro (⟨b, hb⟩ | ⟨a, b, hab⟩)
      · exact ⟨[], b, by simp [hb]⟩
      · exact ⟨c :: a, b, by simp [hab]⟩
    · rintro ⟨a, b, hab⟩
      cases a with
      | nil => exact Or.inl ⟨b, by simpa using hab⟩
      | cons x xs =>
        right
        refine ⟨xs, b, ?_⟩
        simpa using (List.tail_eq_of_cons_eq hab)

theorem isSub_append_right {w t : Str} (u : Str) (h : isSub w t = true) :
    isSub w (t ++ u) = true := by
  rcases (isSub_iff w t).mp h with ⟨a, b, hab⟩
  exact (isSub_iff w (t ++ u)).mpr ⟨a, b ++ u, by simp [hab]⟩

theorem isSub_append_left {w t : Str} (u : Str) (h : isSub w t = true) :
    isSub w (u ++ t) = true := by
  rcases (isSub_iff w t).mp h with ⟨a, b, hab⟩
  exact (isSub_iff w (u ++ t)).mpr ⟨u ++ a, b, by simp [hab]⟩

theorem isSub_trans {u v w : Str} (h1 : isSub u v = true) (h2 : isSub v w = true) :
    isSub u w = true := by
  rcases (isSub_iff u v).mp h1 with ⟨a, b, hab⟩
  rcases (isSub_iff v w).mp h2 with ⟨c, d, hcd⟩
  exact (isSub_iff u w).mpr ⟨c ++ a, b ++ d, by simp [hcd, hab]⟩

theorem isSub_map {w t : Str} (f : Char → Char) (h : isSub w t = true) :
    isSub (w.map f) (t.map f) = true := by
  rcases (isSub_iff w t).mp h with ⟨a, b, hab⟩
  exact (isSub_iff (w.map f) (t.map f)).mpr ⟨a.map f, b.map f, by simp [hab]⟩

theorem lowerStr_append (a b : Str) : lowerStr (a ++ b) = lowerStr a ++ lowerStr b := by
  simp [lowerStr]

/-- Every word produced by the split worker is a substring of the
buffered word followed by the rest of the input. -/
theorem pySplitAux_sub (s : Str) :
    ∀ w u, u ∈ pySplitAux s w → isSub u (w ++ s) = true := by
  induction s with
  | nil =>
    intro w u hu
    simp only [pySplitAux] at hu
    split at hu
    · cases hu
    · rcases List.mem_singleton.mp hu with rfl
      have : preOf u (u ++ []) = true := (preOf_iff u (u ++ [])).mpr ⟨[], rfl⟩
      cases u with
      | nil => simp [isSub]
      | cons x xs => simp only [isSub, Bool.or_eq_true]; exact Or.inl this
  | cons c cs ih =>
    intro w u hu
    simp only [pySplitAux] at hu
    by_cases hc : isSpc c = true
    · rw [if_pos hc] at hu
      by_cases hw : w = []
      · rw [if_pos hw] at hu
        subst hw
        have := ih [] u hu
        simp only [List.nil_append] at this ⊢
        rcases (isSub_iff u cs).mp this with ⟨a, b, hab⟩
        exact (isSub_iff u (c :: cs)).mpr ⟨c :: a, b, by simp [hab]⟩
      · rw [if_neg hw] at hu
        rcases List.mem_cons.mp hu with rfl | hu'
        · cases u with
          | nil => exact absurd rfl hw
          | cons x xs =>
            simp only [List.cons_append, isSub, Bool.or_eq_true]
            exact Or.inl ((preOf_iff _ _).mpr ⟨c :: cs, by simp⟩)
        · have := ih [] u hu'
          simp only [List.nil_append] at this
          exact isSub_append_left w ((isSub_iff u (c :: cs)).mpr (by
            rcases (isSub_iff u cs).mp this with ⟨a, b, hab⟩
            exact ⟨c :: a, b, by simp [hab]⟩))
    · rw [if_neg hc] at hu
      have := ih (w ++ [c]) u hu
      simpa using this

/-- Every query word is a substring of the query string. -/
theorem pySplit_sub {s u : Str} (hu : u ∈ pySplit s) : isSub u s = true := by
  simpa using pySplitAux_sub s [] u hu

/-! ### Scoring lemmas -/

theorem foldl_add_map (f : Str → Int) (l : List Str) :
    ∀ a : Int, l.foldl (fun s w => s + f w) a = a + (l.map f).sum := by
  induction l with
  | nil => intro a; simp
  | cons x xs ih =>
    intro a
    simp only [List.foldl_cons, List.map_cons, List.sum_cons, ih]
    ring

theorem catLower_ok_eq {p : Product} {cl : Str} (h : catLower p = .ok cl) :
    cl = lowerStr (specCatStr p) := by
  cases hc : p.category_name with
  | none =>
    rw [catLower, hc] at h
    injection h with h'
    simp [← h', specCatStr, hc, lowerStr]
  | some s =>
    cases s with
    | none => rw [catLower, hc] at h; cases h
    | some t =>
      rw [catLower, hc] at h
      injection h with h'
      simp [← h', specCatStr, hc]

theorem catLower_ok_of_ne {p : Product} (h : p.category_name ≠ some none) :
    catLower p = .ok (lowerStr (specCatStr p)) := by
  cases hc : p.category_name with
  | none => simp [catLower, hc, specCatStr, lowerStr]
  | some s =>
    cases s with
    | none => exact absurd hc h
    | some t => simp [catLower, hc, specCatStr]

theorem scoreStep_catOk {q : Str} {qw : List Str} {p : Product} {r : Option (Int × Product)}
    (h : scoreStep q qw p = .ok r) : p.category_name ≠ some none := by
  intro hc
  rw [scoreStep, catLower, hc] at h
  cases h

theorem tierOf_specCat (p : Product) (w : Str) :
    tierOf w (lowerStr p.name) (lowerStr (dictGetD p.params BRAND_KEY []))
      (lowerStr (specCatStr p)) (lowerStr (joinVals p.params)) (lowerStr p.description)
    = specWordPoints p w := rfl

theorem specWordPoints_nonneg (p : Product) (w : Str) : 0 ≤ specWordPoints p w := by
  rw [specWordPoints]
  repeat' split
  all_goals norm_num

theorem specWordPoints_le_ten (p : Product) (w : Str) : specWordPoints p w ≤ 10 := by
  rw [specWordPoints]
  repeat' split
  all_goals norm_num

theorem specWordSum_nonneg (p : Product) (qw : List Str) :
    0 ≤ (qw.map (specWordPoints p)).sum := by
  apply List.sum_nonneg
  intro x hx
  rcases List.mem_map.mp hx with ⟨w, -, rfl⟩
  exact specWordPoints_nonneg p w

/-- When a query word sits in the lowered name, its tier is the name
tier. -/
theorem specWordPoints_name (p : Product) {w : Str}
    (h : isSub w (lowerStr p.name) = true) : specWordPoints p w = 10 := by
  rw [specWordPoints, if_pos h]

/-- If the whole lowered query is in the lowered name and the query has
words, the per-word sum is at least 10. -/
theorem specWordSum_ge_ten_of_bonus (p : Product) (q : Str)
    (hne : (pySplit q).map lowerStr ≠ [])
    (hb : isSub (lowerStr q) (lowerStr p.name) = true) :
    10 ≤ (((pySplit q).map lowerStr).map (specWordPoints p)).sum := by
  have hnil : pySplit q ≠ [] := fun hc => hne (by simp [hc])
  rcases List.exists_mem_of_ne_nil _ hnil with ⟨u, hu⟩
  have husub : isSub (lowerStr u) (lowerStr p.name) = true :=
    isSub_trans (isSub_map Char.toLower (pySplit_sub hu)) hb
  have hpts : specWordPoints p (lowerStr u) = 10 := specWordPoints_name p husub
  have hmem : specWordPoints p (lowerStr u) ∈ (((pySplit q).map lowerStr).map (specWordPoints p)) :=
    List.mem_map_of_mem _ (List.mem_map_of_mem _ hu)
  have := List.single_le_sum (l := ((pySplit q).map lowerStr).map (specWordPoints p))
    (fun x hx => by
      rcases List.mem_map.mp hx with ⟨w, -, rfl⟩
      exact specWordPoints_nonneg p w) _ hmem
  rw [hpts] at this
  exact this

/-- Characterization of one scoring step against the spec formula: an
`ok` step either skips the product and the spec score is 0, or yields
exactly the (positive) spec score paired with the product. -/
theorem scoreStep_ok_spec {q : Str} {p : Product} {r : Option (Int × Product)}
    (hne : (pySplit q).map lowerStr ≠ [])
    (h : scoreStep q ((pySplit q).map lowerStr) p = .ok r) :
    (specScore p q = 0 ∧ r = none) ∨ (0 < specScore p q ∧ r = some (specScore p q, p)) := by
  have hcat := scoreStep_catOk h
  rw [scoreStep, catLower_ok_of_ne hcat] at h
  simp only at h
  rw [foldl_add_map, zero_add] at h
  have hmapeq : (((pySplit q).map lowerStr).map (fun w =>
      tierOf w (lowerStr p.name) (lowerStr (dictGetD p.params BRAND_KEY []))
        (lowerStr (specCatStr p)) (lowerStr (joinVals p.params)) (lowerStr p.description)))
      = ((pySplit q).map lowerStr).map (specWordPoints p) := by
    apply List.map_congr_left
    intro w _
    exact tierOf_specCat p w
  rw [hmapeq] at h
  set S := (((pySplit q).map lowerStr).map (specWordPoints p)).sum with hS
  have hSnn : 0 ≤ S := specWordSum_nonneg p _
  by_cases h0 : S = 0
  · rw [if_pos h0] at h
    injection h with h'
    left
    refine ⟨?_, h'.symm⟩
    rw [specScore, ← hS, h0, zero_add]
    by_cases hb : isSub (lowerStr q) (lowerStr p.name) = true
    · exact absurd (le_trans (specWordSum_ge_ten_of_bonus p q hne hb) (le_of_eq h0))
        (by norm_num)
    · rw [if_neg hb]
  · rw [if_neg h0] at h
    injection h with h'
    right
    have hpos : 0 < S := lt_of_le_of_ne hSnn (Ne.symm h0)
    have hscore : specScore p q = if isSub (lowerStr q) (lowerStr p.name) then S + 20 else S := by
      rw [specScore, ← hS]
      by_cases hb : isSub (lowerStr q) (lowerStr p.name) = true
      · rw [if_pos hb, if_pos hb]
      · rw [if_neg hb, if_neg hb, add_zero]
    constructor
    · rw [hscore]
      split
      · linarith
      · exact hpos
    · rw [hscore, ← h']

/-! ### Monotonicity of the spec score under a name extension -/

theorem lowerStr_addNameWord (p : Product) (w : Str) :
    lowerStr (addNameWord p w).name = lowerStr p.name ++ lowerStr (' ' :: w) := by
  rw [addNameWord]
  exact lowerStr_append p.name (' ' :: w)

theorem specWordPoints_addNameWord_ge (p : Product) (ext w : Str) :
    specWordPoints p w ≤ specWordPoints (addNameWord p ext) w := by
  by_cases h1 : isSub w (lowerStr p.name) = true
  · have h2 : isSub w (lowerStr (addNameWord p ext).name) = true := by
      rw [lowerStr_addNameWord]
      exact isSub_append_right _ h1
    rw [specWordPoints_name p h1, specWordPoints_name _ h2]
  · by_cases h2 : isSub w (lowerStr (addNameWord p ext).name) = true
    · rw [specWordPoints_name _ h2]
      exact specWordPoints_le_ten p w
    · have heq : specWordPoints (addNameWord p ext) w = specWordPoints p w := by
        rw [specWordPoints, specWordPoints, if_neg h1, if_neg h2]
        rfl
      rw [heq]

theorem specScore_addNameWord_ge (p : Product) (ext : Str) (q : Str) :
    specScore p q ≤ specScore (addNameWord p ext) q := by
  rw [specScore, specScore]
  have hsum : (((pySplit q).map lowerStr).map (specWordPoints p)).sum
      ≤ (((pySplit q).map lowerStr).map (specWordPoints (addNameWord p ext))).sum :=
    List.sum_le_sum (fun w _ => specWordPoints_addNameWord_ge p ext w)
  have hbonus : (if isSub (lowerStr q) (lowerStr p.name) then (20 : Int) else 0)
      ≤ (if isSub (lowerStr q) (lowerStr (addNameWord p ext).name) then (20 : Int) else 0) := by
    by_cases hb : isSub (lowerStr q) (lowerStr p.name) = true
    · have hb2 : isSub (lowerStr q) (lowerStr (addNameWord p ext).name) = true := by
        rw [lowerStr_addNameWord]
        exact isSub_append_right _ hb
      rw [if_pos hb, if_pos hb2]
    · rw [if_neg hb]
      split
      · norm_num
      · norm_num
  exact add_le_add hsum hbonus

/-! ### Search-loop lemmas -/

/-- A successful scoring step that keeps the product pairs it with its
own product. -/
theorem scoreStep_ok_some_snd {q : Str} {qw : List Str} {p : Product} {x : Int × Product}
    (h : scoreStep q qw p = .ok (some x)) : x.2 = p := by
  have hcat := scoreStep_catOk h
  rw [scoreStep, catLower_ok_of_ne hcat] at h
  simp only at h
  split at h
  · cases h
  · injection h with h2
    injection h2 with h3
    rw [← h3]

/-- With no query words the loop keeps every filter-eligible product at
score 0 and never fails. -/
theorem searchLoop_no_words (q : Str) (cid : Option Str) (mn mx : Option Rat) (us : Option Str) :
    ∀ ps : List Product,
      searchLoop q [] cid mn mx us ps
        = .ok ((ps.filter (fun p => passesFilters p cid mn mx us)).map (fun p => ((0 : Int), p))) := by
  intro ps
  induction ps with
  | nil => rfl
  | cons p ps ih =>
    rw [searchLoop]
    by_cases hf : passesFilters p cid mn mx us = true
    · simp [hf, ih, List.filter_cons]
    · simp [hf, ih, List.filter_cons]

/-- With query words the loop (when it finishes without an exception)
produces exactly the spec candidate list. -/
theorem searchLoop_words (q : Str) (cid : Option Str) (mn mx : Option Rat) (us : Option Str)
    (hne : (pySplit q).map lowerStr ≠ []) :
    ∀ (ps : List Product) (out : List (Int × Product)),
      searchLoop q ((pySplit q).map lowerStr) cid mn mx us ps = .ok out →
      out = (ps.filter (fun p => passesFilters p cid mn mx us)).filterMap (fun p =>
        if 0 < specScore p q then some (specScore p q, p) else none) := by
  have hqw : (((pySplit q).map lowerStr).isEmpty) = false := by
    cases hq : (pySplit q).map lowerStr with
    | nil => exact absurd hq hne
    | cons a as => rfl
  intro ps
  induction ps with
  | nil =>
    intro out h
    injection h with h'
    simp [← h']
  | cons p ps ih =>
    intro out h
    rw [searchLoop] at h
    by_cases hf : passesFilters p cid mn mx us = true
    · rw [if_pos hf, hqw] at h
      simp only [Bool.false_eq_true, if_false] at h
      rw [List.filter_cons, if_pos hf, List.filterMap_cons]
      cases hstep : scoreStep q ((pySplit q).map lowerStr) p with
      | error e => rw [hstep] at h; cases h
      | ok r =>
        rw [hstep] at h
        rcases scoreStep_ok_spec hne hstep with ⟨hz, rfl⟩ | ⟨hpos, rfl⟩
        · rw [hz]
          simp only [lt_irrefl, if_false]
          exact ih out h
        · cases hrest : searchLoop q ((pySplit q).map lowerStr) cid mn mx us ps with
          | error e => rw [hrest] at h; cases h
          | ok rest =>
            rw [hrest] at h
            simp only at h
            injection h with h'
            rw [if_pos hpos, ← h', ih rest hrest]
    · rw [if_neg hf] at h
      rw [List.filter_cons, if_neg hf]
      exact ih out h

/-- The words computed inside `_do_search` (with Python truthiness on
`q`) always equal the spec's word list. -/
theorem doSearch_words_eq (q : Option Str) :
    (if truthyS q then (pySplit (q.getD [])).map lowerStr else []) = specWords q := by
  cases q with
  | none => rfl
  | some s =>
    cases s with
    | nil => rfl
    | cons c cs => rfl

/-- Every candidate the loop emits carries a product from the input
list. -/
theorem searchLoop_mem (q : Str) (qw : List Str) (cid : Option Str) (mn mx : Option Rat)
    (us : Option Str) :
    ∀ (ps : List Product) (out : List (Int × Product)),
      searchLoop q qw cid mn mx us ps = .ok out → ∀ x ∈ out, x.2 ∈ ps := by
  intro ps
  induction ps with
  | nil =>
    intro out h x hx
    injection h with h'
    rw [← h'] at hx
    cases hx
  | cons p ps ih =>
    intro out h x hx
    rw [searchLoop] at h
    by_cases hf : passesFilters p cid mn mx us = true
    · rw [if_pos hf] at h
      by_cases hqw : qw.isEmpty = true
      · rw [if_pos hqw] at h
        cases hrest : searchLoop q qw cid mn mx us ps with
        | error e => rw [hrest] at h; cases h
        | ok rest =>
          rw [hrest] at h
          simp only at h
          injection h with h'
          rw [← h'] at hx
          rcases List.mem_cons.mp hx with rfl | hx'
          · exact List.mem_cons_self _ _
          · exact List.mem_cons_of_mem _ (ih rest hrest x hx')
      · rw [if_neg hqw] at h
        cases hstep : scoreStep q qw p with
        | error e => rw [hstep] at h; cases h
        | ok r =>
          rw [hstep] at h
          cases r with
          | none => exact List.mem_cons_of_mem _ (ih out h x hx)
          | some y =>
            cases hrest : searchLoop q qw cid mn mx us ps with
            | error e => rw [hrest] at h; cases h
            | ok rest =>
              rw [hrest] at h
              simp only at h
              injection h with h'
              rw [← h'] at hx
              rcases List.mem_cons.mp hx with rfl | hx'
              · rw [scoreStep_ok_some_snd hstep]
                exact List.mem_cons_self _ _
              · exact List.mem_cons_of_mem _ (ih rest hrest x hx')
    · rw [if_neg hf] at h
      exact List.mem_cons_of_mem _ (ih out h x hx)

/-! ### Loader lemmas -/

theorem mkProduct_fields {o : Offer} {cats : CatMap} {p : Product}
    (h : mkProduct o cats = .ok p) :
    ∃ pr, parsePrice (o.price.getD ['0']) = some pr ∧
      p = ⟨o.id, o.name.getD [], pr, o.url.getD [], o.categoryId.getD [],
           cleanText (o.description.getD []), buildParams o.params,
           (dictGet cats (some (o.categoryId.getD []))).map Category.name⟩ := by
  cases hp : parsePrice (o.price.getD ['0']) with
  | none => rw [mkProduct, hp] at h; cases h
  | some pr =>
    rw [mkProduct, hp] at h
    injection h with h'
    exact ⟨pr, rfl, h'.symm⟩

/-- Every product of a successful build comes from an offer of the input
list whose availability flag is exactly `"true"`. -/
theorem buildProducts_mem_src (cats : CatMap) :
    ∀ (offers : List Offer) (ps : List Product), buildProducts cats offers = .ok ps →
      ∀ p ∈ ps, ∃ o ∈ offers, o.available = some TRUE_STR ∧ mkProduct o cats = .ok p := by
  intro offers
  induction offers with
  | nil =>
    intro ps h p hp
    injection h with h'
    rw [← h'] at hp
    cases hp
  | cons o os ih =>
    intro ps h p hp
    rw [buildProducts] at h
    by_cases ha : o.available ≠ some TRUE_STR
    · rw [if_pos ha] at h
      rcases ih ps h p hp with ⟨o', ho', hav, hmk⟩
      exact ⟨o', List.mem_cons_of_mem _ ho', hav, hmk⟩
    · rw [if_neg ha] at h
      push_neg at ha
      cases hmk : mkProduct o cats with
      | error e => rw [hmk] at h; cases h
      | ok p0 =>
        rw [hmk] at h
        cases hrest : buildProducts cats os with
        | error e => rw [hrest] at h; cases h
        | ok ps' =>
          rw [hrest] at h
          injection h with h'
          rw [← h'] at hp
          rcases List.mem_cons.mp hp with rfl | hp'
          · exact ⟨o, List.mem_cons_self _ _, ha, hmk⟩
          · rcases ih ps' hrest p hp' with ⟨o', ho', hav, hmk'⟩
            exact ⟨o', List.mem_cons_of_mem _ ho', hav, hmk'⟩

/-- Conversely, every available offer of a successful build contributes a
product. -/
theorem buildProducts_avail_mem (cats : CatMap) :
    ∀ (offers : List Offer) (ps : List Product), buildProducts cats offers = .ok ps →
      ∀ o ∈ offers, o.available = some TRUE_STR → ∃ p ∈ ps, mkProduct o cats = .ok p := by
  intro offers
  induction offers with
  | nil =>
    intro ps h o ho
    cases ho
  | cons o' os ih =>
    intro ps h o ho hav
    rw [buildProducts] at h
    by_cases ha : o'.available ≠ some TRUE_STR
    · rw [if_pos ha] at h
      rcases List.mem_cons.mp ho with rfl | ho'
      · exact absurd hav ha
      · exact ih ps h o ho' hav
    · rw [if_neg ha] at h
      cases hmk : mkProduct o' cats with
      | error e => rw [hmk] at h; cases h
      | ok p0 =>
        rw [hmk] at h
        cases hrest : buildProducts cats os with
        | error e => rw [hrest] at h; cases h
        | ok ps' =>
          rw [hrest] at h
          injection h with h'
          rcases List.mem_cons.mp ho with rfl | ho'
          · exact ⟨p0, by rw [← h']; exact List.mem_cons_self _ _, hmk⟩
          · rcases ih ps' hrest o ho' hav with ⟨p, hp, hmk'⟩
            exact ⟨p, by rw [← h']; exact List.mem_cons_of_mem _ hp, hmk'⟩

/-- A kept offer whose product construction raises aborts the whole
build. -/
theorem buildProducts_error_of_bad (cats : CatMap) :
    ∀ (offers : List Offer) (o : Offer) (e : BuildErr), o ∈ offers →
      o.available = some TRUE_STR → mkProduct o cats = .error e →
      ∃ e', buildProducts cats offers = .error e' := by
  intro offers
  induction offers with
  | nil =>
    intro o e ho
    cases ho
  | cons o' os ih =>
    intro o e ho hav hbad
    rw [buildProducts]
    by_cases ha : o'.available ≠ some TRUE_STR
    · rw [if_pos ha]
      rcases List.mem_cons.mp ho with rfl | ho'
      · exact absurd hav ha
      · exact ih o e ho' hav hbad
    · rw [if_neg ha]
      rcases List.mem_cons.mp ho with rfl | ho'
      · rw [hbad]
        exact ⟨e, rfl⟩
      · cases hmk : mkProduct o' cats with
        | error e2 => exact ⟨e2, rfl⟩
        | ok p0 =>
          rcases ih o e ho' hav hbad with ⟨e', he'⟩
          rw [he']
          exact ⟨e', rfl⟩

theorem parsePrice_zero : parsePrice ['0'] = some 0 := by decide

/-- An available offer with a missing price subelement builds a product
with the default price 0. -/
theorem mkProduct_missing_price {o : Offer} (cats : CatMap) (h : o.price = none) :
    ∃ p, mkProduct o cats = .ok p ∧ p.price = 0 := by
  have hd : o.price.getD ['0'] = ['0'] := by rw [h]; rfl
  rw [mkProduct, hd, parsePrice_zero]
  exact ⟨_, rfl, rfl⟩

/-! ### Remaining helper lemmas -/

theorem pyTruncate_ofNat {α : Type} (n : Nat) (l : List α) : pyTruncate (n : Int) l = l.take n := by
  rw [pyTruncate, if_neg (by exact not_lt.mpr (Int.natCast_nonneg n))]
  rw [Int.toNat_natCast]

theorem pyTruncate_subset {α : Type} (limit : Int) (l : List α) : pyTruncate limit l ⊆ l := by
  rw [pyTruncate]
  split
  · exact List.take_subset _ _
  · exact List.take_subset _ _

/-- Reduction of one scoring step once the category lookup is known. -/
theorem scoreStep_unfold (q : Str) (qw : List Str) (p : Product) (cl : Str)
    (h : catLower p = .ok cl) :
    scoreStep q qw p =
      (if qw.foldl (fun s w => s + tierOf w (lowerStr p.name)
            (lowerStr (dictGetD p.params BRAND_KEY [])) cl
            (lowerStr (joinVals p.params)) (lowerStr p.description)) 0 = 0
        then .ok none
        else .ok (some ((if isSub (lowerStr q) (lowerStr p.name)
            then qw.foldl (fun s w => s + tierOf w (lowerStr p.name)
              (lowerStr (dictGetD p.params BRAND_KEY [])) cl
              (lowerStr (joinVals p.params)) (lowerStr p.description)) 0 + 20
            else qw.foldl (fun s w => s + tierOf w (lowerStr p.name)
              (lowerStr (dictGetD p.params BRAND_KEY [])) cl
              (lowerStr (joinVals p.params)) (lowerStr p.description)) 0), p))) := by
  rw [scoreStep, h]

/-- The loop is total over products whose stored category name is never
null. -/
theorem searchLoop_total (q : Str) (qw : List Str) (cid : Option Str) (mn mx : Option Rat)
    (us : Option Str) :
    ∀ ps : List Product, (∀ p ∈ ps, p.category_name ≠ some none) →
      ∃ out, searchLoop q qw cid mn mx us ps = .ok out := by
  intro ps
  induction ps with
  | nil => exact fun _ => ⟨[], rfl⟩
  | cons p ps ih =>
    intro h
    rcases ih (fun p' hp' => h p' (List.mem_cons_of_mem _ hp')) with ⟨out, hout⟩
    rw [searchLoop]
    by_cases hf : passesFilters p cid mn mx us = true
    · rw [if_pos hf]
      by_cases hqw : qw.isEmpty = true
      · rw [if_pos hqw, hout]
        exact ⟨_, rfl⟩
      · rw [if_neg hqw]
        by_cases hb : (qw.foldl (fun s w => s + tierOf w (lowerStr p.name)
            (lowerStr (dictGetD p.params BRAND_KEY [])) (lowerStr (specCatStr p))
            (lowerStr (joinVals p.params)) (lowerStr p.description)) 0) = 0
        · rw [scoreStep_unfold q qw p _ (catLower_ok_of_ne (h p (List.mem_cons_self _ _))),
            if_pos hb]
          exact ⟨out, hout⟩
        · rw [scoreStep_unfold q qw p _ (catLower_ok_of_ne (h p (List.mem_cons_self _ _))),
            if_neg hb, hout]
          exact ⟨_, rfl⟩
    · rw [if_neg hf]
      exact ⟨out, hout⟩

/-- The value an `ok` scoring step contributes equals the spec score. -/
theorem scoreStep_val {q : Str} {p : Product} {r : Option (Int × Product)}
    (hne : (pySplit q).map lowerStr ≠ [])
    (h : scoreStep q ((pySplit q).map lowerStr) p = .ok r) :
    scoreVal r = specScore p q := by
  rcases scoreStep_ok_spec hne h with ⟨hz, rfl⟩ | ⟨-, rfl⟩
  · rw [hz]
    rfl
  · rfl

/-! ### Claim theorems -/

/-- Claim C3: refresh is all-or-nothing — on a fetch/parse failure or on
any record-level exception during the rebuild the cache is left exactly
as it was, and on success all three fields (category mapping, product
list, timestamp) are replaced by the freshly built snapshot. -/
theorem refresh_all_or_nothing (cache : Cache) (fetched : Except FetchErr Document) (now : Rat) :
    (∀ e, fetched = .error e → refresh cache fetched now = cache)
    ∧ (∀ doc e, fetched = .ok doc →
        buildProducts (buildCategories doc.categories) doc.offers = .error e →
        refresh cache fetched now = cache)
    ∧ (∀ doc ps, fetched = .ok doc →
        buildProducts (buildCategories doc.categories) doc.offers = .ok ps →
        refresh cache fetched now = ⟨buildCategories doc.categories, ps, some now⟩) := by
  refine ⟨?_, ?_, ?_⟩
  · rintro e rfl
    rfl
  · rintro doc e rfl hb
    simp only [refresh, hb]
  · rintro doc ps rfl hb
    simp only [refresh, hb]

/-- Witness for C3 at concrete inputs: a network error leaves the cache
unchanged; an empty document replaces it wholesale. -/
theorem refresh_all_or_nothing_witness :
    refresh emptyCache (.error .network) 1 = emptyCache
    ∧ refresh emptyCache (.ok exDocEmpty) 2 = ⟨[], [], some 2⟩ :=
  ⟨(refresh_all_or_nothing emptyCache (.error .network) 1).1 .network rfl,
   (refresh_all_or_nothing emptyCache (.ok exDocEmpty) 2).2.2 exDocEmpty [] rfl rfl⟩

/-- Counterexample to C8 as stated: refreshing twice on the identical
(empty) document does not give byte-for-byte identical snapshots — the
timestamps differ. -/
theorem refresh_idempotent_counterexample :
    refresh (refresh emptyCache (.ok exDocEmpty) 0) (.ok exDocEmpty) 1
      ≠ refresh emptyCache (.ok exDocEmpty) 0 := by decide

/-- Claim C8 (amended): refreshing twice on the identical source document
yields identical category mappings and product lists; the timestamp of
the second refresh is that refresh's own clock reading, so it differs
whenever the clock has advanced. -/
theorem refresh_idempotent_amended (cache : Cache) (doc : Document) (t1 t2 : Rat) :
    (refresh (refresh cache (.ok doc) t1) (.ok doc) t2).categories
        = (refresh cache (.ok doc) t1).categories
    ∧ (refresh (refresh cache (.ok doc) t1) (.ok doc) t2).products
        = (refresh cache (.ok doc) t1).products
    ∧ (∀ ps, buildProducts (buildCategories doc.categories) doc.offers = .ok ps →
        (refresh (refresh cache (.ok doc) t1) (.ok doc) t2).last_updated = some t2) := by
  cases hb : buildProducts (buildCategories doc.categories) doc.offers with
  | error e =>
    have h : ∀ (c : Cache) (t : Rat), refresh c (.ok doc) t = c := fun c t => by
      simp only [refresh, hb]
    refine ⟨by simp only [h], by simp only [h], fun ps hps => ?_⟩
    cases hps
  | ok ps0 =>
    have h : ∀ (c : Cache) (t : Rat),
        refresh c (.ok doc) t = ⟨buildCategories doc.categories, ps0, some t⟩ := fun c t => by
      simp only [refresh, hb]
    exact ⟨by simp only [h], by simp only [h], fun ps hps => by simp only [h]⟩

/-- Witness for the amended C8 at a concrete document. -/
theorem refresh_idempotent_amended_witness :
    (refresh (refresh emptyCache (.ok exDocEmpty) 0) (.ok exDocEmpty) 1).categories
        = (refresh emptyCache (.ok exDocEmpty) 0).categories
    ∧ (refresh (refresh emptyCache (.ok exDocEmpty) 0) (.ok exDocEmpty) 1).last_updated = some 1 :=
  ⟨(refresh_idempotent_amended emptyCache exDocEmpty 0 1).1,
   (refresh_idempotent_amended emptyCache exDocEmpty 0 1).2.2 [] rfl⟩

/-- Counterexample to C5 as stated: a successful refresh over a document
whose only offer is available but carries no id produces a snapshot whose
single product has an absent id. -/
theorem product_no_id_counterexample :
    (refresh emptyCache (.ok exDocNoId) 0).products.map Product.id = [none]
    ∧ (refresh emptyCache (.ok exDocNoId) 0).last_updated = some 0 := by decide

/-- Claim C5 (amended): offers lacking an id are not excluded — an
available offer with no id yields a product with an absent id in the
snapshot's product list (only the availability flag excludes offers). -/
theorem product_no_id_amended (offers : List Offer) (cats : CatMap) (ps : List Product) (o : Offer)
    (h : buildProducts cats offers = .ok ps) (ho : o ∈ offers)
    (hav : o.available = some TRUE_STR) (hid : o.id = none) :
    ∃ p ∈ ps, p.id = none := by
  rcases buildProducts_avail_mem cats offers ps h o ho hav with ⟨p, hp, hmk⟩
  rcases mkProduct_fields hmk with ⟨pr, -, rfl⟩
  exact ⟨_, hp, hid⟩

/-- Witness for the amended C5. -/
theorem product_no_id_amended_witness : ∃ p ∈ [exProdNoId], p.id = none :=
  product_no_id_amended [exOfferNoId] [] [exProdNoId] exOfferNoId (by decide) (by decide) rfl rfl

/-- Counterexample to C6 as stated: an available offer whose price text
does not parse as a number is not recovered with a default 0.0 — the
whole refresh aborts and the snapshot stays unchanged (here: empty). -/
theorem price_default_counterexample :
    refresh emptyCache (.ok exDocBadPrice) 7 = emptyCache
    ∧ buildProducts [] [exOfferBadPrice] = .error .valueError := by decide

/-- Claim C6 (amended): a missing price subelement defaults to 0.0 and
the record is still included, but a price text that fails to parse as a
number raises and aborts the entire refresh — there is no record-level
recovery for malformed numerics. -/
theorem price_default_amended (offers : List Offer) (cats : CatMap) :
    (∀ (ps : List Product) (o : Offer), buildProducts cats offers = .ok ps → o ∈ offers →
      o.available = some TRUE_STR → o.price = none →
      ∃ p ∈ ps, mkProduct o cats = .ok p ∧ p.price = 0)
    ∧ (∀ o : Offer, o ∈ offers → o.available = some TRUE_STR →
      parsePrice (o.price.getD ['0']) = none → ∃ e, buildProducts cats offers = .error e) := by
  constructor
  · intro ps o h ho hav hpr
    rcases buildProducts_avail_mem cats offers ps h o ho hav with ⟨p, hp, hmk⟩
    rcases mkProduct_missing_price cats hpr with ⟨p', hmk', hp'⟩
    have hpp : p' = p := by
      rw [hmk] at hmk'
      injection hmk' with he
      exact he.symm
    exact ⟨p, hp, hmk, by rw [← hpp]; exact hp'⟩
  · intro o ho hav hparse
    have hbad : mkProduct o cats = .error .valueError := by rw [mkProduct, hparse]
    exact buildProducts_error_of_bad cats offers o .valueError ho hav hbad

/-- Witness for the amended C6: a missing price yields a kept record with
price 0; an unparsable price aborts the build. -/
theorem price_default_amended_witness :
    (∃ p ∈ [exProdNoPrice], mkProduct exOfferNoPrice [] = .ok p ∧ p.price = 0)
    ∧ (∃ e, buildProducts [] [exOfferBadPrice] = .error e) :=
  ⟨(price_default_amended [exOfferNoPrice] []).1 [exProdNoPrice] exOfferNoPrice (by decide)
      (by decide) rfl rfl,
   (price_default_amended [exOfferBadPrice] []).2 exOfferBadPrice (by decide) rfl (by decide)⟩

/-- Claim C7: in a snapshot produced by a successful refresh, a product
whose `category_id` is a key of the snapshot's category mapping carries
that category's name as its `category_name`; otherwise `category_name`
is absent. -/
theorem category_resolution (cache : Cache) (doc : Document) (now : Rat) (ps : List Product)
    (h : buildProducts (buildCategories doc.categories) doc.offers = .ok ps) :
    ∀ p ∈ (refresh cache (.ok doc) now).products,
      (∀ c, dictGet (refresh cache (.ok doc) now).categories (some p.category_id) = some c →
          p.category_name = some c.name)
      ∧ (dictGet (refresh cache (.ok doc) now).categories (some p.category_id) = none →
          p.category_name = none) := by
  have hr : refresh cache (.ok doc) now = ⟨buildCategories doc.categories, ps, some now⟩ := by
    simp only [refresh, h]
  rw [hr]
  intro p hp
  rcases buildProducts_mem_src _ _ _ h p hp with ⟨o, -, -, hmk⟩
  rcases mkProduct_fields hmk with ⟨pr, -, rfl⟩
  dsimp only
  constructor
  · intro c hc
    rw [hc]
    rfl
  · intro hc
    rw [hc]
    rfl

/-- Witness for C7: the offer's category id resolves against the built
mapping and the product carries the category's name. -/
theorem category_resolution_witness : exProdCat.category_name = some (some "pumps".data) := by
  have h := category_resolution emptyCache exDocCat 0 [exProdCat] (by decide)
  exact (h exProdCat (by decide)).1 ⟨some ['1'], some "pumps".data, none⟩ (by decide)

/-- Claim C1: for any query with at least one word, the score a product
contributes in `_do_search` (0 when the product is skipped for scoring 0)
equals the spec formula: the sum over the lowercased whitespace-split
query words of the points of the first matching tier — name 10, brand 8,
resolved category 5, all attribute values 3, description 1 — plus a flat
20 when the entire lowercased query is a substring of the lowercased
name. -/
theorem per_word_tier_scoring (p : Product) (q : Str) (r : Option (Int × Product))
    (hne : (pySplit q).map lowerStr ≠ [])
    (h : scoreStep q ((pySplit q).map lowerStr) p = .ok r) :
    scoreVal r = specScore p q :=
  scoreStep_val hne h

/-- Witness for C1: "alpha" against a product named "alpha pump" scores
10 (name tier) + 20 (full-query bonus). -/
theorem per_word_tier_scoring_witness :
    scoreVal (some ((30 : Int), exProdA)) = specScore exProdA exQ :=
  per_word_tier_scoring exProdA exQ (some (30, exProdA)) (by decide) (by decide)

/-- Claim C9: appending a query word to a product's name never lowers the
score the scoring step assigns (the step stays exception-free because the
category field is unchanged). -/
theorem score_monotone_name_word (p : Product) (q w : Str) (r : Option (Int × Product))
    (hw : w ∈ (pySplit q).map lowerStr)
    (h : scoreStep q ((pySplit q).map lowerStr) p = .ok r) :
    ∃ r', scoreStep q ((pySplit q).map lowerStr) (addNameWord p w) = .ok r'
      ∧ scoreVal r ≤ scoreVal r' := by
  have hne : (pySplit q).map lowerStr ≠ [] := List.ne_nil_of_mem hw
  have hcat := scoreStep_catOk h
  have hcat' : (addNameWord p w).category_name ≠ some none := hcat
  obtain ⟨r', hr'⟩ : ∃ r', scoreStep q ((pySplit q).map lowerStr) (addNameWord p w) = .ok r' := by
    by_cases hb : (((pySplit q).map lowerStr).foldl (fun s u => s + tierOf u
        (lowerStr (addNameWord p w).name) (lowerStr (dictGetD (addNameWord p w).params BRAND_KEY []))
        (lowerStr (specCatStr (addNameWord p w))) (lowerStr (joinVals (addNameWord p w).params))
        (lowerStr (addNameWord p w).description)) 0) = 0
    · exact ⟨none, by rw [scoreStep_unfold q _ _ _ (catLower_ok_of_ne hcat'), if_pos hb]⟩
    · exact ⟨_, by rw [scoreStep_unfold q _ _ _ (catLower_ok_of_ne hcat'), if_neg hb]⟩
  refine ⟨r', hr', ?_⟩
  rw [scoreStep_val hne h, scoreStep_val hne hr']
  exact specScore_addNameWord_ge p w q

/-- Witness for C9: the word "alpha" is missing from "beta" (score 0);
appending it can only raise the score. -/
theorem score_monotone_name_word_witness :
    ∃ r', scoreStep exQ ((pySplit exQ).map lowerStr) (addNameWord exProdB exQ) = .ok r'
      ∧ scoreVal none ≤ scoreVal r' :=
  score_monotone_name_word exProdB exQ exQ none (by decide) (by decide)

/-- Counterexample to C10 as stated: a successful refresh over a source
whose category element has empty text stores a null category name; a
search with any query word then raises `AttributeError` instead of
returning a result. -/
theorem search_totality_counterexample :
    doSearch (refresh emptyCache (.ok exDocNullCat) 0).products (some ['x']) none none none none 10
      = .error .attrError
    ∧ (refresh emptyCache (.ok exDocNullCat) 0).last_updated = some 0 := by decide

/-- Claim C10 (amended): `_do_search` returns a result for every argument
combination provided no product in the snapshot stores a null category
name (snapshots built from category elements with empty text violate
this and make the search raise). -/
theorem search_totality_amended (ps : List Product) (q : Option Str) (cid : Option Str)
    (mn mx : Option Rat) (us : Option Str) (limit : Int)
    (h : ∀ p ∈ ps, p.category_name ≠ some none) :
    ∃ r, doSearch ps q cid mn mx us limit = .ok r := by
  rcases searchLoop_total (q.getD []) (if truthyS q then (pySplit (q.getD [])).map lowerStr else [])
      cid mn mx us ps h with ⟨out, hout⟩
  simp only [doSearch]
  rw [hout]
  exact ⟨_, rfl⟩

/-- Witness for the amended C10. -/
theorem search_totality_amended_witness :
    ∃ r, doSearch [exProdA] (some ['x']) none none none none 10 = .ok r :=
  search_totality_amended [exProdA] (some ['x']) none none none none 10 (by decide)

/-- Claim C4: every product of a successfully built snapshot stems from
an offer whose availability flag is exactly `"true"`, search only returns
products of the snapshot, and so does get-by-id — hence offers with any
other (or no) availability flag are never served. -/
theorem availability_filter (offers : List Offer) (cats : CatMap) (ps : List Product)
    (h : buildProducts cats offers = .ok ps) :
    (∀ p ∈ ps, ∃ o ∈ offers, o.available = some TRUE_STR ∧ mkProduct o cats = .ok p)
    ∧ (∀ (q : Option Str) (cid : Option Str) (mn mx : Option Rat) (us : Option Str)
        (limit : Int) (r : SearchResult), doSearch ps q cid mn mx us limit = .ok r →
        ∀ p ∈ r.results, p ∈ ps)
    ∧ (∀ (pid : Str) (p : Product), getProduct ps pid = some p → p ∈ ps) := by
  refine ⟨buildProducts_mem_src cats offers ps h, ?_, ?_⟩
  · intro q cid mn mx us limit r hr p hp
    simp only [doSearch] at hr
    cases hloop : searchLoop (q.getD [])
        (if truthyS q then (pySplit (q.getD [])).map lowerStr else []) cid mn mx us ps with
    | error e => rw [hloop] at hr; cases hr
    | ok scored =>
      rw [hloop] at hr
      injection hr with hr'
      rw [← hr'] at hp
      dsimp only at hp
      rcases List.mem_map.mp hp with ⟨x, hx, rfl⟩
      have hx2 : x ∈ List.insertionSort keyLe scored := pyTruncate_subset limit _ hx
      have hx3 : x ∈ scored := (List.perm_insertionSort keyLe scored).mem_iff.mp hx2
      exact searchLoop_mem _ _ cid mn mx us ps scored hloop x hx3
  · intro pid p hb
    exact List.mem_of_find?_eq_some hb

/-- Witness for C4: the single available offer accounts for the single
snapshot product. -/
theorem availability_filter_witness :
    ∃ o ∈ [exOffer], o.available = some TRUE_STR ∧ mkProduct o [] = .ok exProdOffer :=
  (availability_filter [exOffer] [] [exProdOffer] (by decide)).1 exProdOffer (by decide)

/-- Claim C2: a successful search returns exactly the spec's candidate
set (filter-eligible positive-score products, or all eligible products
scored 0 when there are no query words) sorted by score descending with
price-ascending tie-break, truncated to `limit`; `total_found` is the
truncated length and `query` echoes the input. -/
theorem ranked_result_assembly (ps : List Product) (q : Option Str) (cid : Option Str)
    (mn mx : Option Rat) (us : Option Str) (limit : Nat) (r : SearchResult)
    (h : doSearch ps q cid mn mx us (limit : Int) = .ok r) :
    ∃ l : List (Int × Product),
      l.Perm (specCandidates ps q cid mn mx us)
      ∧ List.Sorted keyLe l
      ∧ r.results = (l.take limit).map Prod.snd
      ∧ r.total_found = r.results.length
      ∧ r.query = q := by
  simp only [doSearch, doSearch_words_eq] at h
  cases hloop : searchLoop (q.getD []) (specWords q) cid mn mx us ps with
  | error e => rw [hloop] at h; cases h
  | ok scored =>
    rw [hloop] at h
    injection h with h'
    have hscored : scored = specCandidates ps q cid mn mx us := by
      by_cases hw : specWords q = []
      · rw [hw] at hloop
        rw [searchLoop_no_words] at hloop
        injection hloop with hl
        rw [specCandidates, if_pos hw, ← hl]
        rfl
      · rw [specCandidates, if_neg hw]
        exact searchLoop_words (q.getD []) cid mn mx us hw ps scored hloop
    subst hscored
    refine ⟨List.insertionSort keyLe (specCandidates ps q cid mn mx us),
      List.perm_insertionSort keyLe _, List.sorted_insertionSort keyLe _, ?_, ?_, ?_⟩
    · rw [← h']
      dsimp only
      rw [pyTruncate_ofNat]
    · rw [← h']
    · rw [← h']

/-- Witness for C2 at a concrete snapshot: only the matching product
survives, total_found is the returned length, the query is echoed. -/
theorem ranked_result_assembly_witness :
    ∃ l : List (Int × Product),
      l.Perm (specCandidates [exProdB, exProdA] (some exQ) none none none none)
      ∧ List.Sorted keyLe l
      ∧ exRes2.results = (l.take 10).map Prod.snd
      ∧ exRes2.total_found = exRes2.results.length
      ∧ exRes2.query = some exQ :=
  ranked_result_assembly [exProdB, exProdA] (some exQ) none none none none 10 exRes2 (by decide)
